import Mathlib

/-!
# ghbin: content synchronisation logic

A shallow embedding of `main.go` of ghbin (a command line tool that uses a
GitHub repository as a pastebin) together with theorems about its
repository-name parser, its random file names, its upload decision logic and
its recursive download.

Conventions of the embedding

* A Go `string` is a Lean `String`.  The only bytes the program inspects are
  ASCII (`/`, `.`, the base64 alphabet), so splitting on the character `/`
  agrees with splitting on the byte `0x2F`.
* A Go `[]byte` is a `List Byte` with `Byte = Fin 256`.
* Every interaction with a collaborator (the GitHub content API, the random
  source, the local file system, the clipboard, standard output) is recorded
  as an `Event` in a chronological `Trace`.  The collaborators are an `Env`:
  each answer is a function of the whole trace so far, so the same request can
  be answered differently at different times.
* A Go function returning `error` returns an `Outcome` and the new trace.
-/

namespace Ghbin

/-! ## Go values -/

/-- One byte. -/
abbrev Byte := Fin 256

/-- A Go `error` value: either a leaf error carrying its message (made by
`fmt.Errorf` without `%w`, or handed over by a collaborator), or an error made
by `fmt.Errorf("<pre>: %w", cause)`. -/
inductive GoError where
  | new (text : String) : GoError
  | wrap (pre : String) (cause : GoError) : GoError
  deriving DecidableEq, Repr

/-- The text of `err.Error()`. -/
def GoError.message : GoError → String
  | .new text => text
  | .wrap pre cause => pre ++ ": " ++ cause.message

instance instDecidableEqExcept {ε α : Type} [DecidableEq ε] [DecidableEq α] :
    DecidableEq (Except ε α)
  | .ok a, .ok b =>
    if h : a = b then isTrue (by rw [h]) else isFalse (fun h1 => h (by cases h1; rfl))
  | .error a, .error b =>
    if h : a = b then isTrue (by rw [h]) else isFalse (fun h1 => h (by cases h1; rfl))
  | .ok _, .error _ => isFalse (fun h => by cases h)
  | .error _, .ok _ => isFalse (fun h => by cases h)

/-! ## strings.Split with the separator "/" -/

/-- Splitting a character sequence at every occurrence of `sep`: the pieces
between the separators, in order; `n` separators give `n + 1` pieces. -/
def splitChars (sep : Char) : List Char → List (List Char)
  | [] => [[]]
  | c :: cs =>
    if c = sep then [] :: splitChars sep cs
    else
      match splitChars sep cs with
      | [] => [[c]]
      | p :: ps => (c :: p) :: ps

/-- The library function `strings.Split(s, sep)` for a one-character separator. -/
def stringsSplit (s : String) (sep : Char) : List String :=
  (splitChars sep s.data).map String.mk

/-- The function `parseRepoName` of `main.go`. -/
def parseRepoName (repoName : String) : Except GoError (String × String) :=
  let parts := stringsSplit repoName '/'
  if parts.length ≠ 2 then
    .error (.new "invalid repo name format. Expected 'owner/repo'")
  else
    .ok (parts.getD 0 "", parts.getD 1 "")

/-! ## path/filepath (Unix) -/

/-- One step of `filepath.Clean` on the stack of kept path elements (most
recent first): empty elements and `.` are dropped, `..` removes the element
before it when there is one that is not itself `..`, is dropped at the root of
a rooted path, and is kept otherwise. -/
def cleanStep (rooted : Bool) (stack : List (List Char)) (elem : List Char) :
    List (List Char) :=
  if elem = [] ∨ elem = ['.'] then stack
  else if elem = ['.', '.'] then
    match stack with
    | [] => if rooted then [] else [elem]
    | top :: below => if top = ['.', '.'] then elem :: stack else below
  else elem :: stack

/-- The library function `filepath.Clean(path)` on Unix: the shortest equivalent path. -/
def filepathClean (path : String) : String :=
  let rooted := path.data.head? = some '/'
  let kept := ((splitChars '/' path.data).foldl (cleanStep rooted) []).reverse
  let body := String.mk (List.intercalate ['/'] kept)
  if rooted then "/" ++ body
  else if kept = [] then "."
  else body

/-- The library function `filepath.Join(dir, name)` on Unix: empty elements are ignored, the rest
is joined with `/` and cleaned; with only empty elements the result is
empty. -/
def filepathJoin (dir name : String) : String :=
  if dir ≠ "" then filepathClean (dir ++ "/" ++ name)
  else if name ≠ "" then filepathClean name
  else ""

/-- The library function `filepath.Base(path)` on Unix: the last element of the path, after
removing trailing slashes; `.` for the empty path and `/` for a path of
slashes only. -/
def filepathBase (path : String) : String :=
  if path = "" then "."
  else
    let stripped := (path.data.reverse.dropWhile (fun c => c = '/')).reverse
    let last := (stripped.reverse.takeWhile (fun c => c ≠ '/')).reverse
    if last = [] then "/" else String.mk last

/-! ## encoding/base64, URL-safe alphabet -/

/-- The alphabet of `base64.URLEncoding`. -/
def encodeURL : List Char :=
  "ABCDEFGHIJKLMNOPQRSTUVWXYZabcdefghijklmnopqrstuvwxyz0123456789-_".data

/-- The character of the 6-bit value `i`. -/
def encChar (i : Nat) : Char := encodeURL.getD i 'A'

/-- The library function `base64.URLEncoding.EncodeToString`: every 3 bytes give 4 characters, a
rest of 1 or 2 bytes gives 2 or 3 characters and `=` padding. -/
def base64URLEncode : List Byte → List Char
  | b0 :: b1 :: b2 :: rest =>
    let val := b0.val * 65536 + b1.val * 256 + b2.val
    encChar (val / 262144 % 64) :: encChar (val / 4096 % 64) :: encChar (val / 64 % 64)
      :: encChar (val % 64) :: base64URLEncode rest
  | [b0, b1] =>
    let val := b0.val * 65536 + b1.val * 256
    [encChar (val / 262144 % 64), encChar (val / 4096 % 64), encChar (val / 64 % 64), '=']
  | [b0] =>
    let val := b0.val * 65536
    [encChar (val / 262144 % 64), encChar (val / 4096 % 64), '=', '=']
  | [] => []

/-- The 6-bit value of a character of the URL-safe alphabet. -/
def decChar (c : Char) : Option Nat :=
  let i := encodeURL.indexOf c
  if i < 64 then some i else none

/-- The byte `n % 256`. -/
def byteOf (n : Nat) : Byte := ⟨n % 256, Nat.mod_lt _ (by decide)⟩

/-- The library function `base64.URLEncoding.DecodeString` on unpadded input whose length is a
multiple of 4 (all that an encoding of `3 k` bytes needs): every 4 characters
of the alphabet give 3 bytes, anything else is a decoding error (`none`). -/
def base64URLDecode : List Char → Option (List Byte)
  | [] => some []
  | c0 :: c1 :: c2 :: c3 :: rest =>
    match decChar c0, decChar c1, decChar c2, decChar c3, base64URLDecode rest with
    | some v0, some v1, some v2, some v3, some bytes =>
      let val := v0 * 262144 + v1 * 4096 + v2 * 64 + v3
      some (byteOf (val / 65536) :: byteOf (val / 256) :: byteOf val :: bytes)
    | _, _, _, _, _ => none
  | _ => none

/-! ## Collaborators -/

/-- The fields of `github.RepositoryContent` that the program reads.  The
pointer fields read through the nil-safe getters `GetType`, `GetName`,
`GetPath` are strings (`""` for nil); `SHA` is passed on as a pointer;
`getContent` is the result of the method `GetContent()`, the decoded text or
the decoding error. -/
structure RepositoryContent where
  type : String
  name : String
  path : String
  sha : Option String
  getContent : Except GoError String
  deriving DecidableEq, Repr

/-- The fields of `github.RepositoryContentFileOptions` that the program
sets. -/
structure FileOptions where
  message : Option String
  content : List Byte
  sha : Option String
  deriving DecidableEq, Repr

/-- A request to a collaborator, or a line printed. -/
inductive Event where
  | getContents (owner repo path : String)
  | createFile (owner repo path : String) (opts : FileOptions)
  | updateFile (owner repo path : String) (opts : FileOptions)
  | randRead (n : Nat)
  | writeFile (name : String) (data : String) (perm : Nat)
  | mkdirAll (path : String) (perm : Nat)
  | clipboardReadAll
  | readFile (path : String)
  | print (line : String)
  deriving DecidableEq, Repr

/-- The chronological record of the events of one run. -/
abbrev Trace := List Event

/-- The collaborators.  Each function receives the trace before the request.
`getContents` returns the pair `(fileContent, directoryContent)` or an error;
the calls returning only `error` give `none` for a nil error. -/
structure Env where
  getenv : String → String
  getContents : Trace → String → String → String →
    Except GoError (Option RepositoryContent × List RepositoryContent)
  createFile : Trace → String → String → String → FileOptions → Option GoError
  updateFile : Trace → String → String → String → FileOptions → Option GoError
  randRead : Trace → (n : Nat) → Except GoError (Fin n → Byte)
  writeFile : Trace → String → String → Nat → Option GoError
  mkdirAll : Trace → String → Nat → Option GoError
  clipboardReadAll : Trace → Except GoError String
  readFile : Trace → String → Except GoError (List Byte)

/-- How a Go function returning `error` ends: with a nil error, with an
error, or with the run-time panic of a nil pointer dereference. -/
inductive Outcome where
  | ok
  | error (e : GoError)
  | nilDereference
  deriving DecidableEq, Repr

/-- The getter `(*RepositoryContent).GetType()` on a possibly nil pointer. -/
def getType (content : Option RepositoryContent) : String :=
  match content with
  | some c => c.type
  | none => ""

/-! ## The program -/

/-- The function `generateRandomFileName` of `main.go`: 6 bytes of `crypto/rand`, encoded,
with the suffix `.txt`. -/
def generateRandomFileName (env : Env) (t : Trace) : Except GoError String × Trace :=
  match env.randRead t 6 with
  | .error err => (.error (.wrap "failed to generate random file name" err), t ++ [.randRead 6])
  | .ok b => (.ok (String.mk (base64URLEncode (List.ofFn b)) ++ ".txt"), t ++ [.randRead 6])

/-- The tail of `uploadContent` of `main.go` from the comment
`// Create new file` on. -/
def createNewFile (env : Env) (t : Trace) (owner repo path : String) (content : List Byte)
    (message : String) : Outcome × Trace :=
  let opts : FileOptions := { message := some message, content := content, sha := none }
  match env.createFile t owner repo path opts with
  | some err => (.error err, t ++ [.createFile owner repo path opts])
  | none =>
    (.ok, t ++ [.createFile owner repo path opts, .print ("Created file: " ++ path ++ "\n")])

/-- The function `uploadContent` of `main.go`. -/
def uploadContent (env : Env) (t : Trace) (repoName fileName : String) (content : List Byte)
    (message targetDir : String) (forceNew : Bool) : Outcome × Trace :=
  match parseRepoName repoName with
  | .error err => (.error err, t)
  | .ok (owner, repo) =>
    let path := filepathJoin targetDir fileName
    -- Check if file exists
    let t1 := t ++ [.getContents owner repo path]
    match env.getContents t owner repo path with
    | .ok _ =>
      if forceNew then
        match generateRandomFileName env t1 with
        | (.error err, t2) => (.error err, t2)
        | (.ok fileName, t2) =>
          let path := filepathJoin targetDir fileName
          createNewFile env t2 owner repo path content message
      else
        -- Update existing file
        let t2 := t1 ++ [.getContents owner repo path]
        match env.getContents t1 owner repo path with
        | .error err => (.error err, t2)
        | .ok (none, _) => (.nilDereference, t2)
        | .ok (some currentFile, _) =>
          let opts : FileOptions :=
            { message := some message, content := content, sha := currentFile.sha }
          match env.updateFile t2 owner repo path opts with
          | some err => (.error err, t2 ++ [.updateFile owner repo path opts])
          | none =>
            (.ok, t2 ++ [.updateFile owner repo path opts,
              .print ("Updated file: " ++ path ++ "\n")])
    | .error _ => createNewFile env t1 owner repo path content message

/-- The conversion `[]byte(text)`: the UTF-8 bytes of the text. -/
def bytesOfString (text : String) : List Byte :=
  (text.data.flatMap String.utf8EncodeChar).map (fun b => b.val)

/-- The function `getClipboardContent` of `main.go`. -/
def getClipboardContent (env : Env) (t : Trace) : Except GoError (List Byte) × Trace :=
  match env.clipboardReadAll t with
  | .error err => (.error (.wrap "failed to read from clipboard" err), t ++ [.clipboardReadAll])
  | .ok text =>
    if text = "" then (.error (.new "clipboard is empty"), t ++ [.clipboardReadAll])
    else (.ok (bytesOfString text), t ++ [.clipboardReadAll])

/-- The flags of the `upload` command as read from the `cli.Context`. -/
structure UploadFlags where
  path : List String
  clipboard : Bool
  fileName : String
  message : String
  targetDir : String
  new : Bool
  deriving DecidableEq, Repr

/-- The loop `for _, path := range paths` of `uploadAction`. -/
def uploadPaths (env : Env) (repoName message targetDir : String) (forceNew : Bool) :
    List String → Trace → Outcome × Trace
  | [], t => (.ok, t)
  | path :: rest, t =>
    match env.readFile t path with
    | .error err => (.error err, t ++ [.readFile path])
    | .ok content =>
      let fileName := filepathBase path
      match uploadContent env (t ++ [.readFile path]) repoName fileName content message
          targetDir forceNew with
      | (.ok, t1) => uploadPaths env repoName message targetDir forceNew rest t1
      | (out, t1) => (out, t1)

/-- The function `uploadAction` of `main.go`. -/
def uploadAction (env : Env) (t : Trace) (c : UploadFlags) : Outcome × Trace :=
  let token := env.getenv "GHBIN_GITHUB_TOKEN"
  let repoName := env.getenv "GHBIN_REPO"
  if token = "" ∨ repoName = "" then
    (.error (.new "GHBIN_GITHUB_TOKEN and GHBIN_REPO environment variables must be set"), t)
  else if c.clipboard then
    match getClipboardContent env t with
    | (.error err, t1) => (.error err, t1)
    | (.ok content, t1) =>
      if c.fileName = "" then
        match generateRandomFileName env t1 with
        | (.error err, t2) => (.error err, t2)
        | (.ok fileName, t2) =>
          uploadContent env t2 repoName fileName content c.message c.targetDir c.new
      else
        uploadContent env t1 repoName c.fileName content c.message c.targetDir c.new
  else if c.path.length = 0 then
    (.error (.new "at least one path must be provided"), t)
  else
    uploadPaths env repoName c.message c.targetDir c.new c.path t

/-- The function `downloadFile` of `main.go`. -/
def downloadFile (env : Env) (t : Trace) (content : RepositoryContent) : Outcome × Trace :=
  match content.getContent with
  | .error err => (.error err, t)
  | .ok decodedContent =>
    match env.writeFile t content.name decodedContent 0o644 with
    | some err => (.error err, t ++ [.writeFile content.name decodedContent 0o644])
    | none =>
      (.ok, t ++ [.writeFile content.name decodedContent 0o644,
        .print ("Downloaded file: " ++ content.name ++ "\n")])

/-- The loop `for _, item := range directoryContent` of `downloadDirectory`;
`recurse` is the recursive call of `downloadDirectory` on a path.  `none`
means that the recursion did not finish within its fuel. -/
def downloadItems (env : Env) (recurse : Trace → String → Option (Outcome × Trace)) :
    List RepositoryContent → Trace → Option (Outcome × Trace)
  | [], t => some (.ok, t)
  | item :: rest, t =>
    if item.type = "file" then
      match downloadFile env t item with
      | (.ok, t1) => downloadItems env recurse rest t1
      | (out, t1) => some (out, t1)
    else if item.type = "dir" then
      match env.mkdirAll t item.name 0o755 with
      | some err => some (.error err, t ++ [.mkdirAll item.name 0o755])
      | none =>
        match recurse (t ++ [.mkdirAll item.name 0o755]) item.path with
        | none => none
        | some (.ok, t1) => downloadItems env recurse rest t1
        | some (out, t1) => some (out, t1)
    else downloadItems env recurse rest t

/-- The function `downloadDirectory` of `main.go`, with `fuel` bounding the depth of the
recursion (the remote listing decides how deep it goes). -/
def downloadDirectory (env : Env) (owner repo : String) :
    Nat → Trace → String → Option (Outcome × Trace)
  | 0, _, _ => none
  | fuel + 1, t, path =>
    match env.getContents t owner repo path with
    | .error err => some (.error err, t ++ [.getContents owner repo path])
    | .ok (_, directoryContent) =>
      match downloadItems env (downloadDirectory env owner repo fuel) directoryContent
          (t ++ [.getContents owner repo path]) with
      | none => none
      | some (.ok, t1) => some (.ok, t1 ++ [.print ("Downloaded directory: " ++ path ++ "\n")])
      | some (out, t1) => some (out, t1)

/-- The function `downloadContent` of `main.go`; `fuel` bounds the recursion of
`downloadDirectory`. -/
def downloadContent (env : Env) (fuel : Nat) (t : Trace) (owner repo path : String) :
    Option (Outcome × Trace) :=
  match env.getContents t owner repo path with
  | .error err => some (.error err, t ++ [.getContents owner repo path])
  | .ok (content, _) =>
    let t1 := t ++ [.getContents owner repo path]
    if getType content = "file" then
      match content with
      | some c => some (downloadFile env t1 c)
      | none => some (.nilDereference, t1)
    else if getType content = "dir" then
      downloadDirectory env owner repo fuel t1 path
    else
      some (.error (.new ("unknown content type: " ++ getType content)), t1)

/-- The function `downloadAction` of `main.go`; `path` is the flag `--path`. -/
def downloadAction (env : Env) (fuel : Nat) (t : Trace) (path : String) :
    Option (Outcome × Trace) :=
  let token := env.getenv "GHBIN_GITHUB_TOKEN"
  let repoName := env.getenv "GHBIN_REPO"
  if token = "" ∨ repoName = "" then
    some (.error (.new "GHBIN_GITHUB_TOKEN and GHBIN_REPO environment variables must be set"), t)
  else
    match parseRepoName repoName with
    | .error err => some (.error err, t)
    | .ok (owner, repo) => downloadContent env fuel t owner repo path

/-! ## Observations on traces and names -/

/-- The write requests sent to the remote API (`CreateFile`, `UpdateFile`)
among the events of a trace, in order. -/
def remoteWrites (t : Trace) : List Event :=
  t.filter fun ev =>
    match ev with
    | .createFile _ _ _ _ => true
    | .updateFile _ _ _ _ => true
    | _ => false

/-- The local writes (`os.WriteFile`, `os.MkdirAll`) among the events of a
trace, in order. -/
def localWrites (t : Trace) : List Event :=
  t.filter fun ev =>
    match ev with
    | .writeFile _ _ _ => true
    | .mkdirAll _ _ => true
    | _ => false

/-- The characters allowed in URL-safe base64 text: `A-Z`, `a-z`, `0-9`, `-`, `_`. -/
def isURLSafeChar (c : Char) : Bool := c.isAlphanum || c == '-' || c == '_'

/-- A plain file name: not empty, without `/`, and neither `.` nor `..`. -/
def isPlainName (name : String) : Prop :=
  name ≠ "" ∧ '/' ∉ name.data ∧ name ≠ "." ∧ name ≠ ".."

instance (name : String) : Decidable (isPlainName name) := by
  unfold isPlainName; infer_instance

/-- What `filepath.Join(dir, name)` puts in front of a plain `name`. -/
def joinPrefix (dir : String) : String :=
  if dir = "" then ""
  else
    let rooted := dir.data.head? = some '/'
    let kept := ((splitChars '/' dir.data).foldl (cleanStep rooted) []).reverse
    let front := if kept = [] then [] else List.intercalate ['/'] kept ++ ['/']
    if rooted then "/" ++ String.mk front else String.mk front

/-- Whether a listing entry is of kind `file` or `dir`. -/
def isFileOrDir (item : RepositoryContent) : Bool :=
  item.type = "file" ∨ item.type = "dir"

/-- The decoded text of an entry, empty when decoding fails. -/
def decodedText (item : RepositoryContent) : String :=
  match item.getContent with
  | .ok text => text
  | .error _ => ""

/-- The events of `downloadFile` succeeding on an entry. -/
def fileEvents (item : RepositoryContent) : List Event :=
  [.writeFile item.name (decodedText item) 0o644,
   .print ("Downloaded file: " ++ item.name ++ "\n")]

/-! ## Concrete collaborators for the runs evaluated below -/

/-- The remote file `notes/todo.txt`. -/
def todoItem : RepositoryContent :=
  { type := "file", name := "todo.txt", path := "notes/todo.txt", sha := some "3b18e512",
    getContent := .ok "buy milk" }

/-- A remote file whose name has the shape of a generated one. -/
def pasteItem : RepositoryContent :=
  { type := "file", name := "AAAAAAAA.txt", path := "notes/AAAAAAAA.txt", sha := some "95d09f2b",
    getContent := .ok "hello" }

/-- A remote store holding `files`: a query finds the file stored at the path
or answers 404, a create is refused (422) at a path that holds a file, an
update is refused (404) at a path that holds none.  The random source delivers
the byte `randomByte` six times; the local calls succeed. -/
def remoteEnv (files : List RepositoryContent) (randomByte : Byte) : Env :=
  { getenv := fun name =>
      if name = "GHBIN_GITHUB_TOKEN" then "token"
      else if name = "GHBIN_REPO" then "owner/repo" else ""
    getContents := fun _ _ _ path =>
      match files.find? (fun f => f.path = path) with
      | some f => .ok (some f, [])
      | none => .error (.new "404 Not Found")
    createFile := fun _ _ _ path _ =>
      match files.find? (fun f => f.path = path) with
      | some _ => some (.new "422 Invalid request: sha was not supplied")
      | none => none
    updateFile := fun _ _ _ path _ =>
      match files.find? (fun f => f.path = path) with
      | some _ => none
      | none => some (.new "404 Not Found")
    randRead := fun _ _ => .ok (fun _ => randomByte)
    writeFile := fun _ _ _ _ => none
    mkdirAll := fun _ _ _ => none
    clipboardReadAll := fun _ => .ok "buy milk"
    readFile := fun _ _ => .ok [104, 105] }

/-- The store holding `notes/todo.txt`, whose API answers the first request
and fails with 502 from the second request on. -/
def flakyEnv : Env :=
  { remoteEnv [todoItem] 0 with
    getContents := fun t owner repo path =>
      if t = [] then (remoteEnv [todoItem] 0).getContents t owner repo path
      else .error (.new "502 Bad Gateway") }

/-- An empty store whose API is unreachable for queries (every `GetContents`
fails with a network error) while creates go through. -/
def unreachableQueryEnv : Env :=
  { remoteEnv [] 0 with
    getContents := fun _ _ _ _ => .error (.new "dial tcp: i/o timeout") }

/-- The store holding `notes/todo.txt` that refuses every write: an update
with 409, a create with 403. -/
def lockedEnv : Env :=
  { remoteEnv [todoItem] 0 with
    createFile := fun _ _ _ _ _ => some (.new "403 Forbidden")
    updateFile := fun _ _ _ _ _ => some (.new "409 Conflict") }

/-- An empty store that refuses a create at `b.txt` with 403 and accepts every
other create. -/
def pickyEnv : Env :=
  { remoteEnv [] 0 with
    createFile := fun _ _ _ path _ =>
      if path = "b.txt" then some (.new "403 Forbidden") else none }

/-- The store holding `notes/todo.txt` on a machine whose random source
fails. -/
def dryEnv : Env :=
  { remoteEnv [todoItem] 0 with
    randRead := fun _ _ => .error (.new "entropy source unavailable") }

/-- The flags `upload -p a.txt -p docs/b.txt -p c.txt -m m`. -/
def batchFlags : UploadFlags :=
  { path := ["a.txt", "docs/b.txt", "c.txt"], clipboard := false, fileName := "",
    message := "m", targetDir := "", new := false }

/-- A remote entry of the given kind at `path`, named by the last element of
the path. -/
def entry (kind path text : String) : RepositoryContent :=
  { type := kind, name := filepathBase path, path := path, sha := some "0a1b2c3d",
    getContent := .ok text }

/-- A remote store of directory listings: a query for a path of `dirs`
answers with an item of kind `dir` for that path and with its listing, a query
for the path of an entry of `files` answers with that entry, any other query
with 404. -/
def treeEnv (dirs : List (String × List RepositoryContent)) (files : List RepositoryContent) :
    Env :=
  { remoteEnv files 0 with
    getContents := fun _ _ _ path =>
      match dirs.find? (fun d => d.1 = path) with
      | some d => .ok (some (entry "dir" d.1 ""), d.2)
      | none =>
        match files.find? (fun f => f.path = path) with
        | some f => .ok (some f, [])
        | none => .error (.new "404 Not Found") }

/-- An otherwise empty store in which `proj/a` is a directory holding `x.txt`:
the query for `proj/a` succeeds with no file item (a nil `fileContent`) and the
listing of the directory, every other query answers 404. -/
def dirReplyEnv : Env :=
  { remoteEnv [] 0 with
    getContents := fun _ _ _ path =>
      if path = "proj/a" then .ok (none, [entry "file" "proj/a/x.txt" "from a"])
      else .error (.new "404 Not Found") }

/-- The remote tree `proj` with `a/x.txt`, `a/deep/y.txt` and `b/x.txt`. -/
def projEnv : Env :=
  treeEnv
    [("proj", [entry "dir" "proj/a" "", entry "dir" "proj/b" ""]),
     ("proj/a", [entry "file" "proj/a/x.txt" "from a", entry "dir" "proj/a/deep" ""]),
     ("proj/a/deep", [entry "file" "proj/a/deep/y.txt" "deep"]),
     ("proj/b", [entry "file" "proj/b/x.txt" "from b"])]
    []

/-- The listing of the remote directory `docs`: a file, a symlink, a
submodule and a second file. -/
def docsListing : List RepositoryContent :=
  [entry "file" "docs/readme.md" "hello", entry "symlink" "docs/latest" "",
   entry "submodule" "docs/vendor" "", entry "file" "docs/a.txt" "A"]

/-- The remote store with the directory `docs` and the empty directory
`empty`; the symlink `docs/latest` can also be queried on its own. -/
def docsEnv : Env :=
  treeEnv [("docs", docsListing), ("empty", [])] [entry "symlink" "docs/latest" ""]

/-- The listing of the remote directory `mix`: a symlink, the directory
`mix/sub` and a file. -/
def mixListing : List RepositoryContent :=
  [entry "symlink" "mix/link" "", entry "dir" "mix/sub" "", entry "file" "mix/z.txt" "Z"]

/-- The remote store with the directory `mix` and, inside it, the directory
`mix/sub` holding one file. -/
def mixEnv : Env :=
  treeEnv [("mix", mixListing), ("mix/sub", [entry "file" "mix/sub/k.txt" "K"])] []

/-! ## Lemmas: splitting at the separator -/

theorem splitChars_ne_nil (sep : Char) (l : List Char) : splitChars sep l ≠ [] := by
  cases l with
  | nil => simp [splitChars]
  | cons c cs =>
    unfold splitChars
    split
    · simp
    · split <;> simp

theorem splitChars_length (sep : Char) (l : List Char) :
    (splitChars sep l).length = l.count sep + 1 := by
  induction l with
  | nil => simp [splitChars]
  | cons c cs ih =>
    unfold splitChars
    by_cases h : c = sep
    · subst h
      simp [ih]
    · have hne : (c == sep) = false := by simpa using h
      rw [if_neg h, List.count_cons, hne]
      cases hs : splitChars sep cs with
      | nil => exact absurd hs (splitChars_ne_nil sep cs)
      | cons p ps =>
        rw [hs] at ih
        simpa using ih

theorem splitChars_of_not_mem (sep : Char) (l : List Char) (h : sep ∉ l) :
    splitChars sep l = [l] := by
  induction l with
  | nil => simp [splitChars]
  | cons c cs ih =>
    have hc : c ≠ sep := fun e => h (by simp [e])
    have hcs : sep ∉ cs := fun e => h (by simp [e])
    unfold splitChars
    rw [if_neg hc, ih hcs]

theorem splitChars_append (sep : Char) (a b : List Char) (h : sep ∉ a) :
    splitChars sep (a ++ sep :: b) = a :: splitChars sep b := by
  induction a with
  | nil => simp [splitChars]
  | cons c cs ih =>
    have hc : c ≠ sep := fun e => h (by simp [e])
    have hcs : sep ∉ cs := fun e => h (by simp [e])
    rw [List.cons_append, splitChars, if_neg hc, ih hcs]

theorem parseRepoName_of_sides (owner repo : String) (ho : '/' ∉ owner.data)
    (hr : '/' ∉ repo.data) : parseRepoName (owner ++ "/" ++ repo) = .ok (owner, repo) := by
  have hd : (owner ++ "/" ++ repo).data = owner.data ++ '/' :: repo.data := by
    simp [String.data_append]
  simp [parseRepoName, stringsSplit, hd, splitChars_append _ _ _ ho,
    splitChars_of_not_mem _ _ hr]

theorem parseRepoName_error_of_count (s : String) (h : s.data.count '/' ≠ 1) :
    parseRepoName s = .error (.new "invalid repo name format. Expected 'owner/repo'") := by
  have hl : (stringsSplit s '/').length ≠ 2 := by
    simp [stringsSplit, splitChars_length]
    exact h
  simp [parseRepoName, hl]

theorem count_sides (owner repo : String) (h : (owner ++ "/" ++ repo).data.count '/' = 1) :
    '/' ∉ owner.data ∧ '/' ∉ repo.data := by
  have hd : (owner ++ "/" ++ repo).data = owner.data ++ '/' :: repo.data := by
    simp [String.data_append]
  rw [hd, List.count_append, List.count_cons_self] at h
  constructor
  · apply List.count_eq_zero.mp; omega
  · apply List.count_eq_zero.mp; omega

theorem splitChars_not_mem (sep : Char) (l : List Char) :
    ∀ p ∈ splitChars sep l, sep ∉ p := by
  induction l with
  | nil => simp [splitChars]
  | cons c cs ih =>
    unfold splitChars
    by_cases h : c = sep
    · rw [if_pos h]
      intro p hp
      rcases List.mem_cons.mp hp with rfl | hp
      · simp
      · exact ih p hp
    · rw [if_neg h]
      cases hs : splitChars sep cs with
      | nil => exact absurd hs (splitChars_ne_nil sep cs)
      | cons q qs =>
        rw [hs] at ih
        intro p hp
        rcases List.mem_cons.mp hp with rfl | hp
        · intro hm
          rcases List.mem_cons.mp hm with e | hm
          · exact h e.symm
          · exact ih q (by simp) hm
        · exact ih p (by simp [hp])

theorem splitChars_single (sep : Char) (l b : List Char) (h : splitChars sep l = [b]) :
    l = b := by
  have hlen := splitChars_length sep l
  rw [h] at hlen
  have hz : l.count sep = 0 := by simpa using hlen.symm
  have hs := splitChars_of_not_mem sep l (List.count_eq_zero.mp hz)
  rw [hs] at h
  simpa using h

theorem splitChars_pair (sep : Char) (l a b : List Char) (h : splitChars sep l = [a, b]) :
    l = a ++ sep :: b := by
  induction l generalizing a with
  | nil => simp [splitChars] at h
  | cons c cs ih =>
    unfold splitChars at h
    by_cases hc : c = sep
    · rw [if_pos hc] at h
      have h1 : a = [] := ((List.cons.inj h).1).symm
      have h2 : cs = b := splitChars_single sep cs b (List.cons.inj h).2
      simp [h1, hc, h2]
    · rw [if_neg hc] at h
      cases hs : splitChars sep cs with
      | nil => exact absurd hs (splitChars_ne_nil sep cs)
      | cons q qs =>
        rw [hs] at h
        simp at h
        obtain ⟨h1, h2⟩ := h
        subst h1 h2
        rw [ih q hs]
        simp

theorem parseRepoName_ok_inv (s owner repo : String) (h : parseRepoName s = .ok (owner, repo)) :
    s = owner ++ "/" ++ repo ∧ '/' ∉ owner.data ∧ '/' ∉ repo.data := by
  unfold parseRepoName at h
  simp only [stringsSplit] at h
  split at h
  · cases h
  · rename_i hl
    simp only [List.length_map, ne_eq, Decidable.not_not] at hl
    match hs : splitChars '/' s.data, hl with
    | [a, b], _ =>
      rw [hs] at h
      simp at h
      obtain ⟨h1, h2⟩ := h
      subst h1 h2
      have hp := splitChars_pair '/' s.data a b hs
      have hm := splitChars_not_mem '/' s.data
      rw [hs] at hm
      refine ⟨?_, hm a (by simp), hm b (by simp)⟩
      apply String.ext
      simp [String.data_append, hp]

/-! ## Lemmas: base64 -/

theorem decChar_encChar : ∀ i, i < 64 → decChar (encChar i) = some i := by decide

theorem encChar_safe : ∀ i, i < 64 →
    isURLSafeChar (encChar i) = true ∧ encChar i ≠ '=' ∧ encChar i ≠ '/' ∧ encChar i ≠ '+' := by
  decide

theorem base64_group (b0 b1 b2 : Byte) (rest : List Byte) :
    base64URLDecode (base64URLEncode (b0 :: b1 :: b2 :: rest)) =
      (base64URLDecode (base64URLEncode rest)).map (fun l => b0 :: b1 :: b2 :: l) := by
  have h0 := b0.isLt
  have h1 := b1.isLt
  have h2 := b2.isLt
  simp only [base64URLEncode, base64URLDecode]
  rw [decChar_encChar _ (Nat.mod_lt _ (by decide)), decChar_encChar _ (Nat.mod_lt _ (by decide)),
    decChar_encChar _ (Nat.mod_lt _ (by decide)), decChar_encChar _ (Nat.mod_lt _ (by decide))]
  cases base64URLDecode (base64URLEncode rest) with
  | none => rfl
  | some bytes =>
    simp only [Option.map_some', Option.some.injEq, List.cons.injEq, and_true]
    refine ⟨?_, ?_, ?_⟩ <;> apply Fin.ext <;> simp only [byteOf] <;> omega

theorem base64_roundtrip6 (b : Fin 6 → Byte) :
    base64URLDecode (base64URLEncode (List.ofFn b)) = some (List.ofFn b) := by
  simp only [List.ofFn_succ, List.ofFn_zero]
  rw [base64_group, base64_group]
  simp [base64URLEncode, base64URLDecode]

theorem encode6_shape (b : Fin 6 → Byte) :
    (base64URLEncode (List.ofFn b)).length = 8 ∧
    ∀ c ∈ base64URLEncode (List.ofFn b),
      isURLSafeChar c = true ∧ c ≠ '=' ∧ c ≠ '/' ∧ c ≠ '+' := by
  simp only [List.ofFn_succ, List.ofFn_zero, base64URLEncode]
  refine ⟨rfl, ?_⟩
  intro c hc
  simp only [List.mem_cons, List.mem_nil_iff, or_false] at hc
  rcases hc with h | h | h | h | h | h | h | h <;> rw [h] <;>
    exact encChar_safe _ (Nat.mod_lt _ (by decide))

theorem take_append_length {α : Type} (l m : List α) (n : Nat) (h : l.length = n) :
    (l ++ m).take n = l := by
  subst h; simp

theorem drop_append_length {α : Type} (l m : List α) (n : Nat) (h : l.length = n) :
    (l ++ m).drop n = m := by
  subst h; simp

theorem randomName_take (b : Fin 6 → Byte) :
    (String.mk (base64URLEncode (List.ofFn b)) ++ ".txt").data.take 8 =
      base64URLEncode (List.ofFn b) := by
  rw [String.data_append]
  exact take_append_length _ _ 8 (encode6_shape b).1


/-! ## Lemmas: joining paths -/

theorem splitChars_append_sep (sep : Char) (a b : List Char) :
    splitChars sep (a ++ sep :: b) = splitChars sep a ++ splitChars sep b := by
  induction a with
  | nil => simp [splitChars]
  | cons c cs ih =>
    rw [List.cons_append, splitChars, splitChars, ih]
    by_cases hc : c = sep
    · simp [hc]
    · rw [if_neg hc, if_neg hc]
      cases hs : splitChars sep cs with
      | nil => exact absurd hs (splitChars_ne_nil sep cs)
      | cons p ps => rfl

theorem intercalate_snoc (sep : List Char) (r : List (List Char)) (x : List Char) :
    List.intercalate sep (r ++ [x]) =
      (if r = [] then [] else List.intercalate sep r ++ sep) ++ x := by
  induction r with
  | nil => simp [List.intercalate]
  | cons p ps ih =>
    cases ps with
    | nil => simp [List.intercalate]
    | cons q qs =>
      simp only [List.intercalate, List.cons_append, List.intersperse, List.flatten_cons] at ih ⊢
      simp only [reduceCtorEq, if_false] at ih ⊢
      have e : qs.append [x] = qs ++ [x] := rfl
      rw [e, ih]
      simp

theorem cleanStep_plain (rooted : Bool) (stack : List (List Char)) (x : String)
    (hx : isPlainName x) : cleanStep rooted stack x.data = x.data :: stack := by
  obtain ⟨h1, _, h3, h4⟩ := hx
  have e1 : x.data ≠ [] := fun h => h1 (String.ext h)
  have e2 : x.data ≠ ['.'] := fun h => h3 (String.ext h)
  have e3 : x.data ≠ ['.', '.'] := fun h => h4 (String.ext h)
  simp [cleanStep, e1, e2, e3]

theorem filepathJoin_plain (dir x : String) (hx : isPlainName x) :
    filepathJoin dir x = joinPrefix dir ++ x := by
  have hslash : '/' ∉ x.data := hx.2.1
  have hne : x ≠ "" := hx.1
  by_cases hd : dir = ""
  · subst hd
    have hhead : ¬ (x.data.head? = some '/') := by
      intro h
      cases hxd : x.data with
      | nil => rw [hxd] at h; simp at h
      | cons c cs =>
        rw [hxd] at h hslash
        simp at h
        simp [h] at hslash
    apply String.ext
    simp [filepathJoin, hne, filepathClean, joinPrefix, splitChars_of_not_mem _ _ hslash,
      cleanStep_plain _ _ x hx, hhead, List.intercalate]
  · have hdd : dir.data ≠ [] := fun h => hd (String.ext h)
    have hdata : (dir ++ "/" ++ x).data = dir.data ++ '/' :: x.data := by
      simp [String.data_append]
    have hhead : (dir.data ++ '/' :: x.data).head? = dir.data.head? := by
      cases hdl : dir.data with
      | nil => exact absurd hdl hdd
      | cons c cs => simp
    apply String.ext
    simp only [filepathJoin, hd, ne_eq, not_false_eq_true, if_true, filepathClean, hdata, hhead,
      splitChars_append_sep, splitChars_of_not_mem _ _ hslash, List.foldl_append, List.foldl_cons,
      List.foldl_nil, cleanStep_plain _ _ x hx, List.reverse_cons, intercalate_snoc, joinPrefix,
      if_false]
    by_cases hr : dir.data.head? = some '/'
    · simp [hr, String.data_append]
    · simp [hr, String.data_append]

theorem filepathJoin_plain_injective (dir x y : String) (hx : isPlainName x)
    (hy : isPlainName y) (h : filepathJoin dir x = filepathJoin dir y) : x = y := by
  rw [filepathJoin_plain dir x hx, filepathJoin_plain dir y hy] at h
  have hd := congrArg String.data h
  simp only [String.data_append] at hd
  exact String.ext (List.append_cancel_left hd)

theorem randomName_plain (b : Fin 6 → Byte) :
    isPlainName (String.mk (base64URLEncode (List.ofFn b)) ++ ".txt") := by
  obtain ⟨hlen, hsafe⟩ := encode6_shape b
  have hd : (String.mk (base64URLEncode (List.ofFn b)) ++ ".txt").data =
      base64URLEncode (List.ofFn b) ++ ['.', 't', 'x', 't'] := by
    rw [String.data_append]
  have hl : (String.mk (base64URLEncode (List.ofFn b)) ++ ".txt").data.length = 12 := by
    rw [hd, List.length_append, hlen]; rfl
  refine ⟨?_, ?_, ?_, ?_⟩
  · intro h; rw [h] at hl; revert hl; decide
  · rw [hd]
    intro hm
    rcases List.mem_append.mp hm with h | h
    · exact (hsafe _ h).2.2.1 rfl
    · revert h; decide
  · intro h; rw [h] at hl; revert hl; decide
  · intro h; rw [h] at hl; revert hl; decide

/-! ## The repository identifier -/

/-- C1: a string with exactly one `/` and a non-empty text on each side parses
to the text before the `/` as owner and the text after it as repo; a string
with no `/` or with more than one `/` is rejected with an error. -/
theorem parseRepoName_characterised (s owner repo : String) :
    (s.data.count '/' = 1 → s = owner ++ "/" ++ repo → owner ≠ "" → repo ≠ "" →
      parseRepoName s = .ok (owner, repo)) ∧
    (s.data.count '/' ≠ 1 →
      parseRepoName s = .error (.new "invalid repo name format. Expected 'owner/repo'")) := by
  refine ⟨?_, parseRepoName_error_of_count s⟩
  intro hc hs _ _
  subst hs
  obtain ⟨ho, hr⟩ := count_sides owner repo hc
  exact parseRepoName_of_sides owner repo ho hr

/-- Witness of C1: `owner/repo` is parsed, `a/b/c` and `ownerrepo` are
rejected. -/
theorem parseRepoName_characterised_witness :
    ("owner/repo".data.count '/' = 1 ∧ "owner/repo" = "owner" ++ "/" ++ "repo" ∧
      "owner" ≠ "" ∧ "repo" ≠ "" ∧ parseRepoName "owner/repo" = .ok ("owner", "repo")) ∧
    ("a/b/c".data.count '/' ≠ 1 ∧
      parseRepoName "a/b/c" = .error (.new "invalid repo name format. Expected 'owner/repo'")) ∧
    ("ownerrepo".data.count '/' ≠ 1 ∧
      parseRepoName "ownerrepo" =
        .error (.new "invalid repo name format. Expected 'owner/repo'")) :=
  ⟨⟨by decide, by decide, by decide, by decide,
      (parseRepoName_characterised "owner/repo" "owner" "repo").1
        (by decide) (by decide) (by decide) (by decide)⟩,
    ⟨by decide, (parseRepoName_characterised "a/b/c" "" "").2 (by decide)⟩,
    ⟨by decide, (parseRepoName_characterised "ownerrepo" "" "").2 (by decide)⟩⟩

/-- Counterexample to C2: `/repo`, `owner/` and `/` each contain exactly one
`/` and have an empty side, yet each is parsed without error, giving an empty
owner or an empty repo. -/
theorem parseRepoName_accepts_empty_side :
    ("/repo".data.count '/' = 1 ∧ parseRepoName "/repo" = .ok ("", "repo")) ∧
    ("owner/".data.count '/' = 1 ∧ parseRepoName "owner/" = .ok ("owner", "")) ∧
    ("/".data.count '/' = 1 ∧ parseRepoName "/" = .ok ("", "")) := by
  decide

/-- C2 (amended): a string with exactly one `/` is parsed to the text before
and the text after the `/` whether or not a side is empty; every successful
parse yields an owner and a repo that contain no `/` and that, joined by `/`,
give the input back. -/
theorem parseRepoName_sides (s owner repo : String) :
    (s.data.count '/' = 1 → s = owner ++ "/" ++ repo →
      parseRepoName s = .ok (owner, repo)) ∧
    (parseRepoName s = .ok (owner, repo) →
      s = owner ++ "/" ++ repo ∧ '/' ∉ owner.data ∧ '/' ∉ repo.data ∧
        s.data.count '/' = 1) := by
  constructor
  · intro hc hs
    subst hs
    obtain ⟨ho, hr⟩ := count_sides owner repo hc
    exact parseRepoName_of_sides owner repo ho hr
  · intro h
    obtain ⟨hs, ho, hr⟩ := parseRepoName_ok_inv s owner repo h
    refine ⟨hs, ho, hr, ?_⟩
    by_contra hc
    rw [parseRepoName_error_of_count s hc] at h
    cases h

/-- Witness of C2 (amended): `owner/` is parsed to the owner `owner` and the
empty repo, and that parse gives the input back. -/
theorem parseRepoName_sides_witness :
    ("owner/".data.count '/' = 1 ∧ "owner/" = "owner" ++ "/" ++ "" ∧
      parseRepoName "owner/" = .ok ("owner", "")) ∧
    ("owner/" = "owner" ++ "/" ++ "" ∧ '/' ∉ "owner".data ∧ '/' ∉ "".data ∧
      "owner/".data.count '/' = 1) :=
  ⟨⟨by decide, by decide, (parseRepoName_sides "owner/" "owner" "").1 (by decide) (by decide)⟩,
    (parseRepoName_sides "owner/" "owner" "").2 (by decide)⟩

/-! ## Random file names -/

/-- C7: for every 6 bytes delivered by the random source,
`generateRandomFileName` succeeds with a name of exactly 12 characters; the
first 8 are the URL-safe base64 encoding of the 6 bytes, all of them letters,
digits, `-` or `_` (no `=`, `/` or `+`), the last 4 are `.txt`; decoding the
first 8 gives the 6 bytes back, so a different 6-byte value never gives the
same name. -/
theorem generateRandomFileName_spec (env : Env) (t : Trace) (b : Fin 6 → Byte)
    (h : env.randRead t 6 = .ok b) :
    ∃ name : String,
      generateRandomFileName env t = (.ok name, t ++ [.randRead 6]) ∧
      name.length = 12 ∧
      name.data.take 8 = base64URLEncode (List.ofFn b) ∧
      (∀ c ∈ name.data.take 8, isURLSafeChar c = true ∧ c ≠ '=' ∧ c ≠ '/' ∧ c ≠ '+') ∧
      name.data.drop 8 = ['.', 't', 'x', 't'] ∧
      base64URLDecode (name.data.take 8) = some (List.ofFn b) ∧
      ∀ (env2 : Env) (t2 : Trace) (b2 : Fin 6 → Byte), env2.randRead t2 6 = .ok b2 →
        b2 ≠ b → (generateRandomFileName env2 t2).1 ≠ .ok name := by
  obtain ⟨hlen, hsafe⟩ := encode6_shape b
  have htake := randomName_take b
  refine ⟨String.mk (base64URLEncode (List.ofFn b)) ++ ".txt", ?_, ?_, htake, ?_, ?_, ?_, ?_⟩
  · simp [generateRandomFileName, h]
  · show (String.mk (base64URLEncode (List.ofFn b)) ++ ".txt").data.length = 12
    rw [String.data_append, List.length_append, hlen]
    rfl
  · rw [htake]; exact hsafe
  · rw [String.data_append]
    exact drop_append_length _ _ 8 hlen
  · rw [htake]; exact base64_roundtrip6 b
  · intro env2 t2 b2 h2 hne heq
    simp only [generateRandomFileName, h2] at heq
    have hd := congrArg (fun r => match r with
      | Except.ok (n : String) => base64URLDecode (n.data.take 8) | Except.error _ => none) heq
    simp only at hd
    rw [htake, randomName_take b2, base64_roundtrip6, base64_roundtrip6] at hd
    exact hne (List.ofFn_injective (Option.some.inj hd))

/-- Witness of C7: six zero bytes give a 12-character name whose first 8
characters decode to six zero bytes. -/
theorem generateRandomFileName_spec_witness :
    (remoteEnv [] 0).randRead [] 6 = .ok (fun _ => 0) ∧
    ∃ name : String,
      generateRandomFileName (remoteEnv [] 0) [] = (.ok name, [] ++ [.randRead 6]) ∧
      name.length = 12 ∧
      name.data.take 8 = base64URLEncode (List.ofFn (fun _ : Fin 6 => (0 : Byte))) ∧
      (∀ c ∈ name.data.take 8, isURLSafeChar c = true ∧ c ≠ '=' ∧ c ≠ '/' ∧ c ≠ '+') ∧
      name.data.drop 8 = ['.', 't', 'x', 't'] ∧
      base64URLDecode (name.data.take 8) = some (List.ofFn (fun _ : Fin 6 => (0 : Byte))) ∧
      ∀ (env2 : Env) (t2 : Trace) (b2 : Fin 6 → Byte), env2.randRead t2 6 = .ok b2 →
        b2 ≠ (fun _ => 0) → (generateRandomFileName env2 t2).1 ≠ .ok name :=
  ⟨rfl, generateRandomFileName_spec (remoteEnv [] 0) [] (fun _ => 0) rfl⟩

/-! ## Upload -/

theorem uploadPaths_append (env : Env) (repoName message targetDir : String) (forceNew : Bool)
    (pre rest : List String) (t t1 : Trace)
    (h : uploadPaths env repoName message targetDir forceNew pre t = (.ok, t1)) :
    uploadPaths env repoName message targetDir forceNew (pre ++ rest) t =
      uploadPaths env repoName message targetDir forceNew rest t1 := by
  induction pre generalizing t with
  | nil =>
    simp only [uploadPaths, Prod.mk.injEq, true_and] at h
    subst h
    rfl
  | cons p ps ih =>
    simp only [List.cons_append, uploadPaths] at h ⊢
    cases hr : env.readFile t p with
    | error err => rw [hr] at h; simp at h
    | ok content =>
      rw [hr] at h
      simp only at h ⊢
      cases hu : uploadContent env (t ++ [.readFile p]) repoName (filepathBase p) content message
          targetDir forceNew with
      | mk out t2 =>
        rw [hu] at h
        cases out with
        | ok => simp only at h ⊢; exact ih t2 h
        | error e => simp at h
        | nilDereference => simp at h

/-- Counterexample to C3: the existence query finds `notes/todo.txt` and
`forceNew` is false, but the second query (for the revision marker) fails, and
the run ends with that error without any `UpdateFile` call. -/
theorem uploadContent_no_update_when_requery_fails :
    parseRepoName "owner/repo" = .ok ("owner", "repo") ∧
    flakyEnv.getContents [] "owner" "repo" (filepathJoin "notes" "todo.txt") =
      .ok (some todoItem, []) ∧
    uploadContent flakyEnv [] "owner/repo" "todo.txt" [104, 105] "msg" "notes" false =
      (.error (.new "502 Bad Gateway"),
        [.getContents "owner" "repo" "notes/todo.txt",
         .getContents "owner" "repo" "notes/todo.txt"]) ∧
    remoteWrites (uploadContent flakyEnv [] "owner/repo" "todo.txt" [104, 105] "msg" "notes"
      false).2 = [] := by
  decide

/-- C3 (amended): with a well-formed repository name and `forceNew` false, when
the existence query for `path = join(targetDir, fileName)` succeeds and the
query made again for that path returns the file's item, the remote API
receives exactly one write, an `UpdateFile` at that path carrying the given
content and message and the SHA of the item of the second query, and no
`CreateFile`; when the update succeeds the function returns no error and
prints `Updated file: <path>`, and when it fails its error is returned. -/
theorem uploadContent_update_existing (env : Env) (t : Trace)
    (repoName fileName message targetDir owner repo path : String) (content : List Byte)
    (existing : Option RepositoryContent × List RepositoryContent)
    (currentFile : RepositoryContent) (listing : List RepositoryContent)
    (hp : parseRepoName repoName = .ok (owner, repo))
    (hpath : path = filepathJoin targetDir fileName)
    (h1 : env.getContents t owner repo path = .ok existing)
    (h2 : env.getContents (t ++ [.getContents owner repo path]) owner repo path =
      .ok (some currentFile, listing)) :
    ∃ (out : Outcome) (new : Trace),
      uploadContent env t repoName fileName content message targetDir false = (out, t ++ new) ∧
      remoteWrites new = [.updateFile owner repo path
        { message := some message, content := content, sha := currentFile.sha }] ∧
      (env.updateFile (t ++ [.getContents owner repo path, .getContents owner repo path])
          owner repo path
          { message := some message, content := content, sha := currentFile.sha } = none →
        out = .ok ∧
        new = [.getContents owner repo path, .getContents owner repo path,
          .updateFile owner repo path
            { message := some message, content := content, sha := currentFile.sha },
          .print ("Updated file: " ++ path ++ "\n")]) ∧
      (∀ e, env.updateFile (t ++ [.getContents owner repo path, .getContents owner repo path])
          owner repo path
          { message := some message, content := content, sha := currentFile.sha } = some e →
        out = .error e ∧
        new = [.getContents owner repo path, .getContents owner repo path,
          .updateFile owner repo path
            { message := some message, content := content, sha := currentFile.sha }]) := by
  subst hpath
  cases hu : env.updateFile (t ++ [.getContents owner repo (filepathJoin targetDir fileName),
      .getContents owner repo (filepathJoin targetDir fileName)]) owner repo
      (filepathJoin targetDir fileName)
      { message := some message, content := content, sha := currentFile.sha } with
  | none =>
    refine ⟨.ok, _, ?_, ?_, fun _ => ⟨rfl, rfl⟩, fun e h => by cases h⟩
    · simp [uploadContent, hp, h1, h2, hu]
    · simp [remoteWrites]
  | some e =>
    refine ⟨.error e, [.getContents owner repo (filepathJoin targetDir fileName),
          .getContents owner repo (filepathJoin targetDir fileName),
          .updateFile owner repo (filepathJoin targetDir fileName)
            { message := some message, content := content, sha := currentFile.sha }], ?_, ?_, ?_,
          ?_⟩
    · simp [uploadContent, hp, h1, h2, hu]
    · simp [remoteWrites]
    · intro h; cases h
    · intro e2 h; cases h; exact ⟨rfl, rfl⟩

/-- Witness of C3 (amended): the store holds `notes/todo.txt` with SHA
`3b18e512`; uploading `todo.txt` into `notes` updates it with that SHA. -/
theorem uploadContent_update_existing_witness :
    parseRepoName "owner/repo" = .ok ("owner", "repo") ∧
    "notes/todo.txt" = filepathJoin "notes" "todo.txt" ∧
    (remoteEnv [todoItem] 0).getContents [] "owner" "repo" "notes/todo.txt" =
      .ok (some todoItem, []) ∧
    (remoteEnv [todoItem] 0).getContents ([] ++ [.getContents "owner" "repo" "notes/todo.txt"])
      "owner" "repo" "notes/todo.txt" = .ok (some todoItem, []) ∧
    uploadContent (remoteEnv [todoItem] 0) [] "owner/repo" "todo.txt" [104, 105] "msg" "notes"
        false =
      (.ok, [.getContents "owner" "repo" "notes/todo.txt",
        .getContents "owner" "repo" "notes/todo.txt",
        .updateFile "owner" "repo" "notes/todo.txt"
          { message := some "msg", content := [104, 105], sha := some "3b18e512" },
        .print "Updated file: notes/todo.txt\n"]) := by
  refine ⟨by decide, by decide, by decide, by decide, ?_⟩
  obtain ⟨out, new, hrun, _, hok, _⟩ :=
    uploadContent_update_existing (remoteEnv [todoItem] 0) [] "owner/repo" "todo.txt" "msg"
      "notes" "owner" "repo" "notes/todo.txt" [104, 105] (some todoItem, []) todoItem []
      (by decide) (by decide) (by decide) (by decide)
  obtain ⟨ho, hn⟩ := hok (by decide)
  rw [hrun, ho, hn]
  rfl

/-- Counterexample to C4: no remote file exists at `proj/a`, which is a
directory, so the existence query succeeds with a listing and no file item.
With `forceNew` set the only write is a `CreateFile` at the generated path
`proj/AAAAAAAA.txt`, none at `proj/a`; with `forceNew` false the run makes no
write at all and ends in the nil dereference of `currentFile.SHA`. -/
theorem uploadContent_directory_at_path :
    parseRepoName "owner/repo" = .ok ("owner", "repo") ∧
    filepathJoin "proj" "a" = "proj/a" ∧
    dirReplyEnv.getContents [] "owner" "repo" "proj/a" =
      .ok (none, [entry "file" "proj/a/x.txt" "from a"]) ∧
    uploadContent dirReplyEnv [] "owner/repo" "a" [104, 105] "msg" "proj" true =
      (.ok, [.getContents "owner" "repo" "proj/a", .randRead 6,
        .createFile "owner" "repo" "proj/AAAAAAAA.txt"
          { message := some "msg", content := [104, 105], sha := none },
        .print "Created file: proj/AAAAAAAA.txt\n"]) ∧
    uploadContent dirReplyEnv [] "owner/repo" "a" [104, 105] "msg" "proj" false =
      (.nilDereference, [.getContents "owner" "repo" "proj/a",
        .getContents "owner" "repo" "proj/a"]) ∧
    remoteWrites (uploadContent dirReplyEnv [] "owner/repo" "a" [104, 105] "msg" "proj"
      false).2 = [] := by
  decide

/-- C4 (amended): with a well-formed repository name, when the existence query
for `path = join(targetDir, fileName)` returns an error (the way the code
observes that nothing is stored at the path), the remote API receives exactly
one write, a `CreateFile` at that path with the given content and message, and
no `UpdateFile`, whatever `forceNew` is; when the create succeeds the function
returns no error and prints
`Created file: <path>`. -/
theorem uploadContent_create_absent (env : Env) (t : Trace)
    (repoName fileName message targetDir owner repo path : String) (content : List Byte)
    (forceNew : Bool) (e0 : GoError)
    (hp : parseRepoName repoName = .ok (owner, repo))
    (hpath : path = filepathJoin targetDir fileName)
    (h1 : env.getContents t owner repo path = .error e0) :
    ∃ (out : Outcome) (new : Trace),
      uploadContent env t repoName fileName content message targetDir forceNew =
        (out, t ++ new) ∧
      remoteWrites new = [.createFile owner repo path
        { message := some message, content := content, sha := none }] ∧
      (env.createFile (t ++ [.getContents owner repo path]) owner repo path
          { message := some message, content := content, sha := none } = none →
        out = .ok ∧
        new = [.getContents owner repo path,
          .createFile owner repo path
            { message := some message, content := content, sha := none },
          .print ("Created file: " ++ path ++ "\n")]) := by
  subst hpath
  cases hc : env.createFile (t ++ [.getContents owner repo (filepathJoin targetDir fileName)])
      owner repo (filepathJoin targetDir fileName)
      { message := some message, content := content, sha := none } with
  | none =>
    refine ⟨.ok, _, ?_, ?_, fun _ => ⟨rfl, rfl⟩⟩
    · simp [uploadContent, createNewFile, hp, h1, hc]
    · simp [remoteWrites]
  | some e =>
    refine ⟨.error e, [.getContents owner repo (filepathJoin targetDir fileName),
      .createFile owner repo (filepathJoin targetDir fileName)
        { message := some message, content := content, sha := none }], ?_, ?_, ?_⟩
    · simp [uploadContent, createNewFile, hp, h1, hc]
    · simp [remoteWrites]
    · intro h; cases h

/-- Witness of C4 (amended): the store is empty; uploading `todo.txt` into `notes` with
`forceNew` set creates `notes/todo.txt`. -/
theorem uploadContent_create_absent_witness :
    parseRepoName "owner/repo" = .ok ("owner", "repo") ∧
    "notes/todo.txt" = filepathJoin "notes" "todo.txt" ∧
    (remoteEnv [] 0).getContents [] "owner" "repo" "notes/todo.txt" =
      .error (.new "404 Not Found") ∧
    uploadContent (remoteEnv [] 0) [] "owner/repo" "todo.txt" [104, 105] "msg" "notes" true =
      (.ok, [.getContents "owner" "repo" "notes/todo.txt",
        .createFile "owner" "repo" "notes/todo.txt"
          { message := some "msg", content := [104, 105], sha := none },
        .print "Created file: notes/todo.txt\n"]) := by
  refine ⟨by decide, by decide, by decide, ?_⟩
  obtain ⟨out, new, hrun, _, hok⟩ :=
    uploadContent_create_absent (remoteEnv [] 0) [] "owner/repo" "todo.txt" "msg" "notes"
      "owner" "repo" "notes/todo.txt" [104, 105] true (.new "404 Not Found")
      (by decide) (by decide) (by decide)
  obtain ⟨ho, hn⟩ := hok (by decide)
  rw [hrun, ho, hn]
  rfl

/-- Counterexample to C5: the store holds `notes/AAAAAAAA.txt`, the given file
name is `AAAAAAAA.txt`, `forceNew` is set and the random source delivers six
zero bytes: the generated name is `AAAAAAAA.txt` again, and the only write is a
`CreateFile` addressed to the original path.  And when the random source
fails, the run ends with the wrapped error and no `CreateFile` at all. -/
theorem uploadContent_force_new_collision :
    parseRepoName "owner/repo" = .ok ("owner", "repo") ∧
    filepathJoin "notes" "AAAAAAAA.txt" = "notes/AAAAAAAA.txt" ∧
    (remoteEnv [pasteItem] 0).getContents [] "owner" "repo" "notes/AAAAAAAA.txt" =
      .ok (some pasteItem, []) ∧
    generateRandomFileName (remoteEnv [pasteItem] 0)
        [.getContents "owner" "repo" "notes/AAAAAAAA.txt"] =
      (.ok "AAAAAAAA.txt", [.getContents "owner" "repo" "notes/AAAAAAAA.txt", .randRead 6]) ∧
    uploadContent (remoteEnv [pasteItem] 0) [] "owner/repo" "AAAAAAAA.txt" [104, 105] "msg"
        "notes" true =
      (.error (.new "422 Invalid request: sha was not supplied"),
        [.getContents "owner" "repo" "notes/AAAAAAAA.txt", .randRead 6,
         .createFile "owner" "repo" "notes/AAAAAAAA.txt"
           { message := some "msg", content := [104, 105], sha := none }]) ∧
    uploadContent dryEnv [] "owner/repo" "todo.txt" [104, 105] "msg" "notes" true =
      (.error (.wrap "failed to generate random file name" (.new "entropy source unavailable")),
        [.getContents "owner" "repo" "notes/todo.txt", .randRead 6]) := by
  decide

/-- C5 (amended): with a well-formed repository name and `forceNew` set, when
the existence query for the original path `join(targetDir, fileName)` succeeds
and the random source delivers its 6 bytes, no `UpdateFile` is made and exactly
one `CreateFile` is made, at `join(targetDir, g)` for the generated name `g`;
that path differs from the original path whenever the given file name is a
plain name other than `g`, and it is the original path when the given file
name is `g`. -/
theorem uploadContent_force_new (env : Env) (t : Trace)
    (repoName fileName message targetDir owner repo path g newPath : String)
    (content : List Byte) (existing : Option RepositoryContent × List RepositoryContent)
    (b : Fin 6 → Byte)
    (hp : parseRepoName repoName = .ok (owner, repo))
    (hpath : path = filepathJoin targetDir fileName)
    (h1 : env.getContents t owner repo path = .ok existing)
    (hr : env.randRead (t ++ [.getContents owner repo path]) 6 = .ok b)
    (hg : g = String.mk (base64URLEncode (List.ofFn b)) ++ ".txt")
    (hnew : newPath = filepathJoin targetDir g) :
    ∃ (out : Outcome) (new : Trace),
      uploadContent env t repoName fileName content message targetDir true = (out, t ++ new) ∧
      remoteWrites new = [.createFile owner repo newPath
        { message := some message, content := content, sha := none }] ∧
      (env.createFile (t ++ [.getContents owner repo path, .randRead 6]) owner repo newPath
          { message := some message, content := content, sha := none } = none →
        out = .ok ∧
        new = [.getContents owner repo path, .randRead 6,
          .createFile owner repo newPath
            { message := some message, content := content, sha := none },
          .print ("Created file: " ++ newPath ++ "\n")]) ∧
      (isPlainName fileName → fileName ≠ g → newPath ≠ path) ∧
      (fileName = g → newPath = path) := by
  have hgen : generateRandomFileName env
      (t ++ [.getContents owner repo (filepathJoin targetDir fileName)]) =
      (.ok g, t ++ [.getContents owner repo (filepathJoin targetDir fileName)] ++
        [.randRead 6]) := by
    subst hpath
    rw [hg]
    simp only [generateRandomFileName, hr]
  have hdist : isPlainName fileName → fileName ≠ g → newPath ≠ path := by
    intro hplain hne heq
    rw [hnew, hpath] at heq
    have hgp : isPlainName g := by rw [hg]; exact randomName_plain b
    exact hne (filepathJoin_plain_injective targetDir _ _ hgp hplain heq).symm
  have hsame : fileName = g → newPath = path := by
    intro h; rw [hnew, hpath, h]
  subst hpath hnew
  cases hc : env.createFile
      (t ++ [.getContents owner repo (filepathJoin targetDir fileName), .randRead 6]) owner repo
      (filepathJoin targetDir g)
      { message := some message, content := content, sha := none } with
  | none =>
    refine ⟨.ok, _, ?_, ?_, fun _ => ⟨rfl, rfl⟩, hdist, hsame⟩
    · simp [uploadContent, hgen, createNewFile, hp, h1, hc]
    · simp [remoteWrites]
  | some e =>
    refine ⟨.error e, [.getContents owner repo (filepathJoin targetDir fileName), .randRead 6,
      .createFile owner repo (filepathJoin targetDir g)
        { message := some message, content := content, sha := none }], ?_, ?_, ?_, hdist, hsame⟩
    · simp [uploadContent, hgen, createNewFile, hp, h1, hc]
    · simp [remoteWrites]
    · intro h; cases h

/-- Witness of C5 (amended): the store holds `notes/todo.txt`; uploading
`todo.txt` into `notes` with `forceNew` set and six zero random bytes creates
`notes/AAAAAAAA.txt`, a path other than `notes/todo.txt`. -/
theorem uploadContent_force_new_witness :
    parseRepoName "owner/repo" = .ok ("owner", "repo") ∧
    "notes/todo.txt" = filepathJoin "notes" "todo.txt" ∧
    (remoteEnv [todoItem] 0).getContents [] "owner" "repo" "notes/todo.txt" =
      .ok (some todoItem, []) ∧
    (remoteEnv [todoItem] 0).randRead ([] ++ [.getContents "owner" "repo" "notes/todo.txt"]) 6 =
      .ok (fun _ => 0) ∧
    "AAAAAAAA.txt" = String.mk (base64URLEncode (List.ofFn (fun _ : Fin 6 => (0 : Byte)))) ++
      ".txt" ∧
    "notes/AAAAAAAA.txt" = filepathJoin "notes" "AAAAAAAA.txt" ∧
    isPlainName "todo.txt" ∧ "todo.txt" ≠ "AAAAAAAA.txt" ∧
    "notes/AAAAAAAA.txt" ≠ "notes/todo.txt" ∧
    uploadContent (remoteEnv [todoItem] 0) [] "owner/repo" "todo.txt" [104, 105] "msg" "notes"
        true =
      (.ok, [.getContents "owner" "repo" "notes/todo.txt", .randRead 6,
        .createFile "owner" "repo" "notes/AAAAAAAA.txt"
          { message := some "msg", content := [104, 105], sha := none },
        .print "Created file: notes/AAAAAAAA.txt\n"]) := by
  obtain ⟨out, new, hrun, _, hok, hdist, _⟩ :=
    uploadContent_force_new (remoteEnv [todoItem] 0) [] "owner/repo" "todo.txt" "msg" "notes"
      "owner" "repo" "notes/todo.txt" "AAAAAAAA.txt" "notes/AAAAAAAA.txt" [104, 105]
      (some todoItem, []) (fun _ => 0)
      (by decide) (by decide) (by decide) rfl (by decide) (by decide)
  refine ⟨by decide, by decide, by decide, rfl, by decide, by decide, by decide, by decide,
    hdist (by decide) (by decide), ?_⟩
  obtain ⟨ho, hn⟩ := hok (by decide)
  rw [hrun, ho, hn]
  rfl

/-- Counterexample to C6: every `GetContents` fails with a network error, yet
`uploadContent` does not return that error: it goes on to call `CreateFile`
and returns no error. -/
theorem uploadContent_swallows_query_error :
    unreachableQueryEnv.getContents [] "owner" "repo" (filepathJoin "notes" "todo.txt") =
      .error (.new "dial tcp: i/o timeout") ∧
    uploadContent unreachableQueryEnv [] "owner/repo" "todo.txt" [104, 105] "msg" "notes" false =
      (.ok, [.getContents "owner" "repo" "notes/todo.txt",
        .createFile "owner" "repo" "notes/todo.txt"
          { message := some "msg", content := [104, 105], sha := none },
        .print "Created file: notes/todo.txt\n"]) := by
  decide

/-- C6 (amended): an error `e` returned by the revision-marker query, by
`UpdateFile` or by `CreateFile` is returned unchanged by `uploadContent`, and
the failing call is the last event of the run; and when the upload of an item
of a batch returns an error, `uploadAction` returns that error and ends where
that upload ended, without reading or uploading a later item.  An error of the
existence query is excepted: it is taken as the file being absent. -/
theorem uploadContent_propagates_errors (env : Env) (t : Trace)
    (repoName fileName message targetDir owner repo path : String) (content : List Byte)
    (forceNew : Bool) (e : GoError)
    (hp : parseRepoName repoName = .ok (owner, repo))
    (hpath : path = filepathJoin targetDir fileName) :
    (∀ existing, env.getContents t owner repo path = .ok existing → forceNew = false →
      env.getContents (t ++ [.getContents owner repo path]) owner repo path = .error e →
      uploadContent env t repoName fileName content message targetDir forceNew =
        (.error e, t ++ [.getContents owner repo path, .getContents owner repo path])) ∧
    (∀ existing currentFile listing, env.getContents t owner repo path = .ok existing →
      forceNew = false →
      env.getContents (t ++ [.getContents owner repo path]) owner repo path =
        .ok (some currentFile, listing) →
      env.updateFile (t ++ [.getContents owner repo path, .getContents owner repo path])
        owner repo path
        { message := some message, content := content, sha := currentFile.sha } = some e →
      uploadContent env t repoName fileName content message targetDir forceNew =
        (.error e, t ++ [.getContents owner repo path, .getContents owner repo path,
          .updateFile owner repo path
            { message := some message, content := content, sha := currentFile.sha }])) ∧
    (∀ e0, env.getContents t owner repo path = .error e0 →
      env.createFile (t ++ [.getContents owner repo path]) owner repo path
        { message := some message, content := content, sha := none } = some e →
      uploadContent env t repoName fileName content message targetDir forceNew =
        (.error e, t ++ [.getContents owner repo path,
          .createFile owner repo path
            { message := some message, content := content, sha := none }])) ∧
    (∀ existing g, env.getContents t owner repo path = .ok existing → forceNew = true →
      (generateRandomFileName env (t ++ [.getContents owner repo path])).1 = .ok g →
      env.createFile (t ++ [.getContents owner repo path, .randRead 6]) owner repo
        (filepathJoin targetDir g)
        { message := some message, content := content, sha := none } = some e →
      uploadContent env t repoName fileName content message targetDir forceNew =
        (.error e, t ++ [.getContents owner repo path, .randRead 6,
          .createFile owner repo (filepathJoin targetDir g)
            { message := some message, content := content, sha := none }])) ∧
    (∀ (c : UploadFlags) (before rest : List String) (item : String) (t0 t1 t2 : Trace)
        (data : List Byte),
      env.getenv "GHBIN_GITHUB_TOKEN" ≠ "" → env.getenv "GHBIN_REPO" = repoName →
      c.clipboard = false → c.path = before ++ item :: rest →
      uploadPaths env repoName c.message c.targetDir c.new before t0 = (.ok, t1) →
      env.readFile t1 item = .ok data →
      uploadContent env (t1 ++ [.readFile item]) repoName (filepathBase item) data c.message
        c.targetDir c.new = (.error e, t2) →
      uploadAction env t0 c = (.error e, t2)) := by
  subst hpath
  refine ⟨?_, ?_, ?_, ?_, ?_⟩
  · intro existing h1 hf h2
    subst hf
    simp [uploadContent, hp, h1, h2]
  · intro existing currentFile listing h1 hf h2 hu
    subst hf
    simp [uploadContent, hp, h1, h2, hu]
  · intro e0 h1 hc
    simp [uploadContent, createNewFile, hp, h1, hc]
  · intro existing g h1 hf hg hc
    subst hf
    have hgen : generateRandomFileName env
        (t ++ [.getContents owner repo (filepathJoin targetDir fileName)]) =
        (.ok g, t ++ [.getContents owner repo (filepathJoin targetDir fileName)] ++
          [.randRead 6]) := by
      unfold generateRandomFileName at hg ⊢
      cases hr : env.randRead (t ++ [.getContents owner repo (filepathJoin targetDir fileName)]) 6
        with
      | error err => rw [hr] at hg; simp at hg
      | ok b => rw [hr] at hg; simp only at hg ⊢; rw [Except.ok.inj hg]
    simp [uploadContent, hgen, createNewFile, hp, h1, hc]
  · intro c before rest item t0 t1 t2 data htok hrepo hclip hpaths hbefore hread hup
    have hrn : repoName ≠ "" := by
      intro h
      have hempty : parseRepoName "" =
          .error (.new "invalid repo name format. Expected 'owner/repo'") := by decide
      rw [h, hempty] at hp
      cases hp
    have hlen : ¬ (before ++ item :: rest).length = 0 := by simp
    simp only [uploadAction, hrepo, htok, hrn, or_self, if_false, hclip, Bool.false_eq_true,
      hpaths, hlen]
    rw [uploadPaths_append env repoName c.message c.targetDir c.new before (item :: rest) t0 t1
      hbefore]
    simp only [uploadPaths, hread, hup]

/-- Witness of C6 (amended): a failing revision-marker query (502), a refused
update (409), a refused create at an absent path and at a generated path (403)
are each returned as they are, and in the batch `a.txt`, `docs/b.txt`, `c.txt`
the refused create of `b.txt` ends the run before `c.txt` is read. -/
theorem uploadContent_propagates_errors_witness :
    (flakyEnv.getContents [.getContents "owner" "repo" "notes/todo.txt"] "owner" "repo"
        "notes/todo.txt" = .error (.new "502 Bad Gateway") ∧
      uploadContent flakyEnv [] "owner/repo" "todo.txt" [104, 105] "msg" "notes" false =
        (.error (.new "502 Bad Gateway"),
          [.getContents "owner" "repo" "notes/todo.txt",
           .getContents "owner" "repo" "notes/todo.txt"])) ∧
    uploadContent lockedEnv [] "owner/repo" "todo.txt" [104, 105] "msg" "notes" false =
      (.error (.new "409 Conflict"),
        [.getContents "owner" "repo" "notes/todo.txt",
         .getContents "owner" "repo" "notes/todo.txt",
         .updateFile "owner" "repo" "notes/todo.txt"
           { message := some "msg", content := [104, 105], sha := some "3b18e512" }]) ∧
    uploadContent lockedEnv [] "owner/repo" "new.txt" [104, 105] "msg" "notes" false =
      (.error (.new "403 Forbidden"),
        [.getContents "owner" "repo" "notes/new.txt",
         .createFile "owner" "repo" "notes/new.txt"
           { message := some "msg", content := [104, 105], sha := none }]) ∧
    uploadContent lockedEnv [] "owner/repo" "todo.txt" [104, 105] "msg" "notes" true =
      (.error (.new "403 Forbidden"),
        [.getContents "owner" "repo" "notes/todo.txt", .randRead 6,
         .createFile "owner" "repo" "notes/AAAAAAAA.txt"
           { message := some "msg", content := [104, 105], sha := none }]) ∧
    uploadAction pickyEnv [] batchFlags =
      (.error (.new "403 Forbidden"),
        [.readFile "a.txt", .getContents "owner" "repo" "a.txt",
         .createFile "owner" "repo" "a.txt"
           { message := some "m", content := [104, 105], sha := none },
         .print "Created file: a.txt\n",
         .readFile "docs/b.txt", .getContents "owner" "repo" "b.txt",
         .createFile "owner" "repo" "b.txt"
           { message := some "m", content := [104, 105], sha := none }]) :=
  ⟨⟨by decide,
      (uploadContent_propagates_errors flakyEnv [] "owner/repo" "todo.txt" "msg" "notes" "owner"
        "repo" "notes/todo.txt" [104, 105] false (.new "502 Bad Gateway") (by decide)
        (by decide)).1 (some todoItem, []) (by decide) rfl (by decide)⟩,
    (uploadContent_propagates_errors lockedEnv [] "owner/repo" "todo.txt" "msg" "notes" "owner"
      "repo" "notes/todo.txt" [104, 105] false (.new "409 Conflict") (by decide)
      (by decide)).2.1 (some todoItem, []) todoItem [] (by decide) rfl (by decide) (by decide),
    (uploadContent_propagates_errors lockedEnv [] "owner/repo" "new.txt" "msg" "notes" "owner"
      "repo" "notes/new.txt" [104, 105] false (.new "403 Forbidden") (by decide)
      (by decide)).2.2.1 (.new "404 Not Found") (by decide) (by decide),
    (uploadContent_propagates_errors lockedEnv [] "owner/repo" "todo.txt" "msg" "notes" "owner"
      "repo" "notes/todo.txt" [104, 105] true (.new "403 Forbidden") (by decide)
      (by decide)).2.2.2.1 (some todoItem, []) "AAAAAAAA.txt" (by decide) rfl (by decide)
      (by decide),
    (uploadContent_propagates_errors pickyEnv [] "owner/repo" "" "" "" "owner" "repo" ""
      [] false (.new "403 Forbidden") (by decide) (by decide)).2.2.2.2 batchFlags ["a.txt"]
      ["c.txt"] "docs/b.txt" []
      [.readFile "a.txt", .getContents "owner" "repo" "a.txt",
        .createFile "owner" "repo" "a.txt"
          { message := some "m", content := [104, 105], sha := none },
        .print "Created file: a.txt\n"]
      [.readFile "a.txt", .getContents "owner" "repo" "a.txt",
        .createFile "owner" "repo" "a.txt"
          { message := some "m", content := [104, 105], sha := none },
        .print "Created file: a.txt\n",
        .readFile "docs/b.txt", .getContents "owner" "repo" "b.txt",
        .createFile "owner" "repo" "b.txt"
          { message := some "m", content := [104, 105], sha := none }]
      [104, 105] (by decide) (by decide) (by decide) (by decide) (by decide) (by decide)
      (by decide)⟩

/-! ## Download -/

theorem downloadItems_filter (env : Env)
    (recurse : Trace → String → Option (Outcome × Trace)) (items : List RepositoryContent)
    (t : Trace) :
    downloadItems env recurse items t = downloadItems env recurse (items.filter isFileOrDir) t := by
  induction items generalizing t with
  | nil => rfl
  | cons item rest ih =>
    by_cases hf : item.type = "file"
    · have hk : isFileOrDir item = true := by simp [isFileOrDir, hf]
      rw [List.filter_cons_of_pos hk]
      simp only [downloadItems, hf, if_true]
      cases hd : downloadFile env t item with
      | mk out t1 =>
        cases out with
        | ok => exact ih t1
        | error e => rfl
        | nilDereference => rfl
    · by_cases hd : item.type = "dir"
      · have hk : isFileOrDir item = true := by simp [isFileOrDir, hd]
        rw [List.filter_cons_of_pos hk]
        simp only [downloadItems, hf, hd, if_true, if_false]
        cases hm : env.mkdirAll t item.name 0o755 with
        | some err => rfl
        | none =>
          simp only
          cases hr : recurse (t ++ [.mkdirAll item.name 0o755]) item.path with
          | none => rfl
          | some res =>
            obtain ⟨out, t1⟩ := res
            cases out with
            | ok => exact ih t1
            | error e => rfl
            | nilDereference => rfl
      · have hk : ¬ (isFileOrDir item = true) := by simp [isFileOrDir, hf, hd]
        rw [List.filter_cons_of_neg hk]
        simp only [downloadItems, hf, hd, if_false]
        exact ih t

theorem downloadItems_flat (env : Env)
    (recurse : Trace → String → Option (Outcome × Trace)) (items : List RepositoryContent)
    (t : Trace)
    (hnodir : ∀ i ∈ items, i.type ≠ "dir")
    (hdec : ∀ i ∈ items, i.type = "file" → ∃ text, i.getContent = .ok text)
    (hwrite : ∀ t1 name text, env.writeFile t1 name text 0o644 = none) :
    downloadItems env recurse items t =
      some (.ok, t ++ (items.filter (fun i => i.type = "file")).flatMap fileEvents) := by
  induction items generalizing t with
  | nil => simp [downloadItems]
  | cons item rest ih =>
    have ih2 := fun t1 => ih t1 (fun i hi => hnodir i (List.mem_cons_of_mem _ hi))
      (fun i hi => hdec i (List.mem_cons_of_mem _ hi))
    by_cases hf : item.type = "file"
    · obtain ⟨text, htext⟩ := hdec item (List.mem_cons_self _ _) hf
      simp only [downloadItems, hf, if_true, downloadFile, htext, hwrite]
      rw [ih2]
      simp [hf, fileEvents, decodedText, htext]
    · have hd : item.type ≠ "dir" := hnodir item (List.mem_cons_self _ _)
      simp only [downloadItems, hf, hd, if_false]
      rw [ih2]
      simp [hf]

theorem downloadItems_mono (env : Env)
    (rec1 rec2 : Trace → String → Option (Outcome × Trace))
    (hrec : ∀ t p r, rec1 t p = some r → rec2 t p = some r)
    (items : List RepositoryContent) (t : Trace) (r : Outcome × Trace)
    (h : downloadItems env rec1 items t = some r) :
    downloadItems env rec2 items t = some r := by
  induction items generalizing t with
  | nil => exact h
  | cons item rest ih =>
    by_cases hf : item.type = "file"
    · simp only [downloadItems, hf, if_true] at h ⊢
      cases hd : downloadFile env t item with
      | mk out t1 =>
        rw [hd] at h
        cases out with
        | ok => exact ih t1 h
        | error e => exact h
        | nilDereference => exact h
    · by_cases hd : item.type = "dir"
      · simp only [downloadItems, hf, hd, if_true, if_false] at h ⊢
        cases hm : env.mkdirAll t item.name 0o755 with
        | some err => rw [hm] at h; exact h
        | none =>
          rw [hm] at h
          simp only at h ⊢
          cases hr : rec1 (t ++ [.mkdirAll item.name 0o755]) item.path with
          | none => rw [hr] at h; cases h
          | some res =>
            rw [hr] at h
            rw [hrec _ _ _ hr]
            obtain ⟨out, t1⟩ := res
            cases out with
            | ok => exact ih t1 h
            | error e => exact h
            | nilDereference => exact h
      · simp only [downloadItems, hf, hd, if_false] at h ⊢
        exact ih t h

theorem downloadDirectory_fuel_succ (env : Env) (owner repo : String) (fuel : Nat) :
    ∀ (t : Trace) (path : String) (r : Outcome × Trace),
      downloadDirectory env owner repo fuel t path = some r →
      downloadDirectory env owner repo (fuel + 1) t path = some r := by
  induction fuel with
  | zero => intro t path r h; cases h
  | succ n ih =>
    intro t path r h
    rw [downloadDirectory] at h ⊢
    cases hg : env.getContents t owner repo path with
    | error err => rw [hg] at h; exact h
    | ok res =>
      obtain ⟨content, listing⟩ := res
      rw [hg] at h
      simp only at h ⊢
      cases hi : downloadItems env (downloadDirectory env owner repo n) listing
          (t ++ [.getContents owner repo path]) with
      | none => rw [hi] at h; cases h
      | some res =>
        rw [hi] at h
        rw [downloadItems_mono env _ _ ih listing _ res hi]
        exact h

theorem downloadDirectory_fuel_mono (env : Env) (owner repo : String) (fuel more : Nat)
    (t : Trace) (path : String) (r : Outcome × Trace)
    (h : downloadDirectory env owner repo fuel t path = some r) :
    downloadDirectory env owner repo (fuel + more) t path = some r := by
  induction more with
  | zero => exact h
  | succ k ih => exact downloadDirectory_fuel_succ env owner repo (fuel + k) t path r ih

/-- C9: when the remote store answers the query for a path with an item whose
kind is neither `file` nor `dir`, `downloadContent` returns the error
`unknown content type: <kind>`, and the query is the only event of the run: no
local file is written and no directory is created. -/
theorem downloadContent_unknown_kind (env : Env) (fuel : Nat) (t : Trace)
    (owner repo path : String) (content : Option RepositoryContent)
    (listing : List RepositoryContent)
    (h : env.getContents t owner repo path = .ok (content, listing))
    (hf : getType content ≠ "file") (hd : getType content ≠ "dir") :
    ∃ (e : GoError) (new : Trace),
      downloadContent env fuel t owner repo path = some (.error e, t ++ new) ∧
      e.message = "unknown content type: " ++ getType content ∧
      new = [.getContents owner repo path] ∧
      localWrites new = [] := by
  refine ⟨.new ("unknown content type: " ++ getType content), [.getContents owner repo path],
    ?_, rfl, rfl, rfl⟩
  simp [downloadContent, h, hf, hd]

/-- Witness of C9: the path `docs/latest` is a symlink; downloading it fails
with `unknown content type: symlink` after the query alone. -/
theorem downloadContent_unknown_kind_witness :
    docsEnv.getContents [] "owner" "repo" "docs/latest" =
      .ok (some (entry "symlink" "docs/latest" ""), []) ∧
    getType (some (entry "symlink" "docs/latest" "")) = "symlink" ∧
    ∃ (e : GoError) (new : Trace),
      downloadContent docsEnv 3 [] "owner" "repo" "docs/latest" = some (.error e, [] ++ new) ∧
      e.message = "unknown content type: " ++ getType (some (entry "symlink" "docs/latest" "")) ∧
      new = [.getContents "owner" "repo" "docs/latest"] ∧
      localWrites new = [] :=
  ⟨by decide, by decide,
    downloadContent_unknown_kind docsEnv 3 [] "owner" "repo" "docs/latest"
      (some (entry "symlink" "docs/latest" "")) [] (by decide) (by decide) (by decide)⟩

/-- C10: inside `downloadDirectory` the entries of the listing whose kind is
neither `file` nor `dir` cause no event and no error: the loop over the listing
runs exactly as the loop over its `file` and `dir` entries, in listing order;
when that loop succeeds the function returns no error and its last event is
the line `Downloaded directory: <path>`; a listing without `file` and `dir`
entries (an empty one in particular) causes no local write and still reports
completion; and for a listing without `dir` entries whose files decode and
whose writes succeed, the run is the query, then one write and one line per
`file` entry in listing order, then the completion line. -/
theorem downloadDirectory_skips_other_kinds (env : Env) (owner repo : String) (fuel : Nat)
    (t : Trace) (path : String) (content : Option RepositoryContent)
    (listing : List RepositoryContent)
    (h : env.getContents t owner repo path = .ok (content, listing)) :
    downloadItems env (downloadDirectory env owner repo fuel) listing
        (t ++ [.getContents owner repo path]) =
      downloadItems env (downloadDirectory env owner repo fuel) (listing.filter isFileOrDir)
        (t ++ [.getContents owner repo path]) ∧
    (∀ t1, downloadItems env (downloadDirectory env owner repo fuel)
        (listing.filter isFileOrDir) (t ++ [.getContents owner repo path]) = some (.ok, t1) →
      downloadDirectory env owner repo (fuel + 1) t path =
        some (.ok, t1 ++ [.print ("Downloaded directory: " ++ path ++ "\n")])) ∧
    (listing.filter isFileOrDir = [] →
      downloadDirectory env owner repo (fuel + 1) t path =
        some (.ok, t ++ [.getContents owner repo path,
          .print ("Downloaded directory: " ++ path ++ "\n")]) ∧
      localWrites [.getContents owner repo path,
          .print ("Downloaded directory: " ++ path ++ "\n")] = []) ∧
    ((∀ i ∈ listing, i.type ≠ "dir") →
      (∀ i ∈ listing, i.type = "file" → ∃ text, i.getContent = .ok text) →
      (∀ t1 name text, env.writeFile t1 name text 0o644 = none) →
      downloadDirectory env owner repo (fuel + 1) t path =
        some (.ok, t ++ [.getContents owner repo path] ++
          (listing.filter (fun i => i.type = "file")).flatMap fileEvents ++
          [.print ("Downloaded directory: " ++ path ++ "\n")])) := by
  have hskip := downloadItems_filter env (downloadDirectory env owner repo fuel) listing
    (t ++ [.getContents owner repo path])
  refine ⟨hskip, ?_, ?_, ?_⟩
  · intro t1 h1
    rw [← hskip] at h1
    simp only [downloadDirectory, h, h1]
  · intro hnone
    refine ⟨?_, rfl⟩
    rw [hnone] at hskip
    simp only [downloadDirectory, h, hskip, downloadItems]
    simp
  · intro hnodir hdec hwrite
    have hflat := downloadItems_flat env (downloadDirectory env owner repo fuel) listing
      (t ++ [.getContents owner repo path]) hnodir hdec hwrite
    simp only [downloadDirectory, h, hflat]

/-- Witness of C10: the listing of `docs` holds two files, a symlink and a
submodule; the download writes the two files in listing order, skips the other
two entries and reports completion; the empty directory `empty` causes no write
and reports completion; the listing of `mix` holds a symlink, a directory and a
file, and the download skips the symlink, descends into the directory, writes
the file and reports completion. -/
theorem downloadDirectory_skips_other_kinds_witness :
    docsEnv.getContents [] "owner" "repo" "docs" =
      .ok (some (entry "dir" "docs" ""), docsListing) ∧
    downloadDirectory docsEnv "owner" "repo" (0 + 1) [] "docs" =
      some (.ok, [.getContents "owner" "repo" "docs",
        .writeFile "readme.md" "hello" 0o644, .print "Downloaded file: readme.md\n",
        .writeFile "a.txt" "A" 0o644, .print "Downloaded file: a.txt\n",
        .print "Downloaded directory: docs\n"]) ∧
    docsEnv.getContents [] "owner" "repo" "empty" = .ok (some (entry "dir" "empty" ""), []) ∧
    downloadDirectory docsEnv "owner" "repo" (0 + 1) [] "empty" =
      some (.ok, [.getContents "owner" "repo" "empty",
        .print "Downloaded directory: empty\n"]) ∧
    mixEnv.getContents [] "owner" "repo" "mix" = .ok (some (entry "dir" "mix" ""), mixListing) ∧
    downloadDirectory mixEnv "owner" "repo" (1 + 1) [] "mix" =
      some (.ok, [.getContents "owner" "repo" "mix",
        .mkdirAll "sub" 0o755, .getContents "owner" "repo" "mix/sub",
        .writeFile "k.txt" "K" 0o644, .print "Downloaded file: k.txt\n",
        .print "Downloaded directory: mix/sub\n",
        .writeFile "z.txt" "Z" 0o644, .print "Downloaded file: z.txt\n",
        .print "Downloaded directory: mix\n"]) := by
  refine ⟨by decide, ?_, by decide, ?_, by decide, ?_⟩
  · have hflat := (downloadDirectory_skips_other_kinds docsEnv "owner" "repo" 0 [] "docs"
      (some (entry "dir" "docs" "")) docsListing (by decide)).2.2.2 (by decide)
      (by
        intro i hi _
        simp only [docsListing, List.mem_cons, List.mem_nil_iff, or_false] at hi
        rcases hi with rfl | rfl | rfl | rfl <;> exact ⟨_, rfl⟩)
      (fun _ _ _ => rfl)
    rw [hflat]
    decide
  · exact ((downloadDirectory_skips_other_kinds docsEnv "owner" "repo" 0 [] "empty"
      (some (entry "dir" "empty" "")) [] (by decide)).2.2.1 (by decide)).1
  · exact (downloadDirectory_skips_other_kinds mixEnv "owner" "repo" 1 [] "mix"
      (some (entry "dir" "mix" "")) mixListing (by decide)).2.1
      [.getContents "owner" "repo" "mix",
        .mkdirAll "sub" 0o755, .getContents "owner" "repo" "mix/sub",
        .writeFile "k.txt" "K" 0o644, .print "Downloaded file: k.txt\n",
        .print "Downloaded directory: mix/sub\n",
        .writeFile "z.txt" "Z" 0o644, .print "Downloaded file: z.txt\n"] (by decide)

/-- C8 (failing input): the remote tree `proj` holds `a/x.txt`, `a/deep/y.txt`
and `b/x.txt`.  The download succeeds, but every file is written under its base
name in the working directory and every directory is created under its base
name in the working directory: both `x.txt` are written to the one local path
`x.txt`, `deep` is created beside `a` and not inside it, and nothing is written
inside `a`, `deep` or `b`.  The local writes are the same when
`downloadDirectory` is run on `proj` directly. -/
theorem downloadContent_flattens_tree :
    downloadContent projEnv 3 [] "owner" "repo" "proj" = some (.ok,
      [.getContents "owner" "repo" "proj",
       .getContents "owner" "repo" "proj",
       .mkdirAll "a" 0o755, .getContents "owner" "repo" "proj/a",
       .writeFile "x.txt" "from a" 0o644, .print "Downloaded file: x.txt\n",
       .mkdirAll "deep" 0o755, .getContents "owner" "repo" "proj/a/deep",
       .writeFile "y.txt" "deep" 0o644, .print "Downloaded file: y.txt\n",
       .print "Downloaded directory: proj/a/deep\n",
       .print "Downloaded directory: proj/a\n",
       .mkdirAll "b" 0o755, .getContents "owner" "repo" "proj/b",
       .writeFile "x.txt" "from b" 0o644, .print "Downloaded file: x.txt\n",
       .print "Downloaded directory: proj/b\n",
       .print "Downloaded directory: proj\n"]) ∧
    (downloadContent projEnv 3 [] "owner" "repo" "proj").map (fun r => localWrites r.2) =
      some [.mkdirAll "a" 0o755, .writeFile "x.txt" "from a" 0o644, .mkdirAll "deep" 0o755,
         .writeFile "y.txt" "deep" 0o644, .mkdirAll "b" 0o755,
         .writeFile "x.txt" "from b" 0o644] ∧
    (downloadDirectory projEnv "owner" "repo" 3 [] "proj").map (fun r => localWrites r.2) =
      some [.mkdirAll "a" 0o755, .writeFile "x.txt" "from a" 0o644, .mkdirAll "deep" 0o755,
         .writeFile "y.txt" "deep" 0o644, .mkdirAll "b" 0o755,
         .writeFile "x.txt" "from b" 0o644] := by
  have hrun : downloadContent projEnv 3 [] "owner" "repo" "proj" = some (.ok,
      [.getContents "owner" "repo" "proj",
       .getContents "owner" "repo" "proj",
       .mkdirAll "a" 0o755, .getContents "owner" "repo" "proj/a",
       .writeFile "x.txt" "from a" 0o644, .print "Downloaded file: x.txt\n",
       .mkdirAll "deep" 0o755, .getContents "owner" "repo" "proj/a/deep",
       .writeFile "y.txt" "deep" 0o644, .print "Downloaded file: y.txt\n",
       .print "Downloaded directory: proj/a/deep\n",
       .print "Downloaded directory: proj/a\n",
       .mkdirAll "b" 0o755, .getContents "owner" "repo" "proj/b",
       .writeFile "x.txt" "from b" 0o644, .print "Downloaded file: x.txt\n",
       .print "Downloaded directory: proj/b\n",
       .print "Downloaded directory: proj\n"]) := by decide
  refine ⟨hrun, ?_, by decide⟩
  rw [hrun]
  decide

end Ghbin
